import Mathlib

/-!
Verification of `ecms/templatetags/stylable_admin_list.py`.

The Python module is shallowly embedded: dynamic values become `PyVal`,
attribute access becomes a partial map on names, Python exceptions become
`Except PyErr`, and Django safe strings become `SafeText` (a string with a
safety flag).  Framework helpers used by the module (`escape`,
`conditional_escape`, `mark_safe`, `capfirst`, `_boolean_icon`,
`EMPTY_CHANGELIST_VALUE`, the date formatters and Python builtins such as
`str.replace` and `repr`) are modelled here as well, since only their
observable behaviour matters to the module.
-/

namespace Ecms

/-- Python exceptions that the embedded code can raise or catch. -/
inductive PyErr where
  | attributeError
  | objectDoesNotExist
  | typeError
deriving DecidableEq

/-- Dynamic Python values as they occur in this module: `None`, strings,
booleans, ints, decimals (embedded as exact rationals) and other objects
(identified by their string form). -/
inductive PyVal where
  | none
  | str (s : String)
  | bool (b : Bool)
  | int (n : Int)
  | dec (q : ℚ)
  | obj (strRepr : String)
deriving DecidableEq

/-- Model of Python `unicode(v)` / Django `smart_unicode` on our values. -/
def pyStr : PyVal → String
  | .none => "None"
  | .str s => s
  | .bool true => "True"
  | .bool false => "False"
  | .int n => toString n
  | .dec q => toString q
  | .obj r => r

/-- Model of Python truthiness for `PyVal`. -/
def pyTruthy : PyVal → Bool
  | .none => false
  | .str s => decide (s ≠ "")
  | .bool b => b
  | .int n => decide (n ≠ 0)
  | .dec q => decide (q ≠ 0)
  | .obj _ => true

/-- A Python string together with Django's `SafeData` marker. -/
structure SafeText where
  text : String
  safe : Bool
deriving DecidableEq

/-- The apostrophe character, kept out of string literals. -/
def squoteChar : Char := Char.ofNat 39

/-- Escaping of a single character, as in Django `django.utils.html.escape`. -/
def escapeChar (c : Char) : String :=
  if c = '&' then "&amp;"
  else if c = '<' then "&lt;"
  else if c = '>' then "&gt;"
  else if c = '"' then "&quot;"
  else if c = squoteChar then "&#39;"
  else String.singleton c

/-- HTML-escape a character list, character by character. -/
def htmlEscapeL : List Char → List Char
  | [] => []
  | c :: cs => (escapeChar c).data ++ htmlEscapeL cs

/-- HTML-escape a plain string (Django `escape` on the underlying text). -/
def htmlEscape (s : String) : String := ⟨htmlEscapeL s.data⟩

/-- Django `escape`: escapes unconditionally and returns a safe string. -/
def escapeText (t : SafeText) : SafeText := ⟨htmlEscape t.text, true⟩

/-- Django `escape` applied to a dynamic value (which is first coerced to
text by `force_unicode`). -/
def escapeVal (v : PyVal) : SafeText := ⟨htmlEscape (pyStr v), true⟩

/-- Django `mark_safe`. -/
def mark_safe (t : SafeText) : SafeText := ⟨t.text, true⟩

/-- Django `conditional_escape`: escape unless the text is already safe. -/
def conditional_escape (t : SafeText) : SafeText :=
  if t.safe then t else escapeText t

/-- The fuelled scan behind the Python `str.replace` model; the fuel
dominates the length of the scanned list. -/
def replaceFuel (pat rep : List Char) : Nat → List Char → List Char
  | 0, s => s
  | _ + 1, [] => []
  | fuel + 1, c :: cs =>
    if pat ≠ [] ∧ pat <+: (c :: cs) then
      rep ++ replaceFuel pat rep fuel (List.drop (pat.length - 1) cs)
    else
      c :: replaceFuel pat rep fuel cs

/-- Model of Python `str.replace` on character lists: replace every
(leftmost, non-overlapping) occurrence of `pat` by `rep`.  The degenerate
empty pattern (unused by the module) is left unreplaced. -/
def replaceAllAux (pat rep s : List Char) : List Char :=
  replaceFuel pat rep s.length s

/-- Model of Python `s.replace(pat, rep)`. -/
def pyReplace (s pat rep : String) : String :=
  ⟨replaceAllAux pat.data rep.data s.data⟩

/-- Django `capfirst`: upper-case the first character. -/
def capfirst (s : String) : String :=
  match s.data with
  | [] => ""
  | c :: cs => String.mk (c.toUpper :: cs)

/-- Django's `EMPTY_CHANGELIST_VALUE` constant (a plain, unsafe string). -/
def EMPTY_CHANGELIST_VALUE : SafeText := ⟨"(None)", false⟩

/-- Model of `settings.ADMIN_MEDIA_PREFIX`. -/
def ADMIN_MEDIA_PREFIX : String := "/media/"

/-- The icon name chosen by Django `_boolean_icon`. -/
def booleanIconAlt : PyVal → String
  | .bool true => "yes"
  | .bool false => "no"
  | _ => "unknown"

/-- Django `admin_list._boolean_icon`: a safe `<img>` tag for a boolean. -/
def boolean_icon (v : PyVal) : SafeText :=
  ⟨"<img src=\"" ++ ADMIN_MEDIA_PREFIX ++ "img/admin/icon-" ++ booleanIconAlt v
    ++ ".gif\" alt=\"" ++ pyStr v ++ "\" />", true⟩

/-- A Python attribute object: its value when read, whether it is callable,
the outcome of calling it without arguments, and its `allow_tags` /
`boolean` markers (`getattr(attr, ..., False)`). -/
structure Attr where
  value : PyVal
  callable : Bool
  callOut : Except PyErr PyVal
  allowTags : Bool
  boolean : Bool

/-- Outcome of looking a name up on a result object: the attribute may be
missing (`getattr` raises `AttributeError`), its descriptor may raise on
access, or it is found. -/
inductive AttrRes where
  | missing
  | raises (e : PyErr)
  | found (a : Attr)

/-- A model instance from `cl.result_list`: its attributes, the MPTT level
attribute name when the model has `_mptt_meta`, and `serializable_value`. -/
structure Result where
  attrs : String → AttrRes
  mpttMeta : Option String
  serializableValue : String → PyVal

/-- Model of `getattr(result, nm)`. -/
def resGetattr (r : Result) (nm : String) : Except PyErr Attr :=
  match r.attrs nm with
  | .missing => .error .attributeError
  | .raises e => .error e
  | .found a => .ok a

/-- The `None` object viewed as an attribute (default of a 3-argument
`getattr`); calling it would be a `TypeError`. -/
def noneAttr : Attr := ⟨.none, false, .error .typeError, false, false⟩

/-- Model of `getattr(result, nm, default)`: only `AttributeError` is
replaced by the default, other exceptions propagate. -/
def getattrD (r : Result) (nm : String) (d : Attr) : Except PyErr Attr :=
  match r.attrs nm with
  | .missing => .ok d
  | .raises .attributeError => .ok d
  | .raises e => .error e
  | .found a => .ok a

/-- A callable placed in `list_display` or found on the `ModelAdmin`; the
`id` models Python object identity for `==` comparisons. -/
structure AdminCallable where
  id : Nat
  strRepr : String
  run : Result → Except PyErr PyVal
  allowTags : Bool
  boolean : Bool

/-- An entry of `cl.list_display`: either an attribute name or a callable. -/
inductive DisplayItem where
  | name (s : String)
  | call (f : AdminCallable)

/-- Python `==` on display items (callables compare by identity). -/
def DisplayItem.pyEq : DisplayItem → DisplayItem → Bool
  | .name a, .name b => a == b
  | .call f, .call g => f.id == g.id
  | _, _ => false

/-- Python `'%s' % item` for a display item. -/
def DisplayItem.str : DisplayItem → String
  | .name s => s
  | .call f => f.strRepr

/-- A Django model field as introspected by this module: the `isinstance`
tests of the dispatch, plus `name`, `attname`, `decimal_places` and
`flatchoices`. -/
structure Field where
  name : String
  attname : String
  isManyToOneRel : Bool
  isDateField : Bool
  isDateTimeField : Bool
  isTimeField : Bool
  isBooleanField : Bool
  isNullBooleanField : Bool
  isDecimalField : Bool
  decimal_places : Nat
  flatchoices : List (PyVal × PyVal)
deriving DecidableEq

/-- `cl.lookup_opts`: field lookup (`None` models `FieldDoesNotExist`) and
the primary key's `attname`. -/
structure LookupOpts where
  getFieldMap : String → Option Field
  pkAttname : String

/-- `cl.model_admin`: the `list_column_classes` mapping (empty when the
attribute is absent) and the admin's own displayable attributes. -/
structure ModelAdmin where
  listColumnClasses : String → Option String
  adminAttrs : String → Option AdminCallable

/-- A form of `cl.formset.forms`: its field names, the rendered widget
`force_unicode(form[nm])` and the rendered errors `force_unicode(bf.errors)`. -/
structure Form where
  fields : List String
  renderField : String → String
  fieldErrors : String → String

/-- A header produced by the framework's `result_headers(cl)`; only its
`class_attrib` entry is relevant here. -/
structure Header where
  classAttrib : SafeText
deriving DecidableEq

/-- Framework-level configuration: the `MPTT_ADMIN_LEVEL_INDENT` setting
(absent means the default) and the composed date formatters
`dateformat.format(v, fmt)` for the three formats of `get_date_formats()`. -/
structure Fw where
  mpttLevelIndentSetting : Option Int
  datetimeFmt : PyVal → String
  dateFmt : PyVal → String
  timeFmt : PyVal → String

/-- `MPTT_ADMIN_LEVEL_INDENT = getattr(settings, 'MPTT_ADMIN_LEVEL_INDENT', 10)`. -/
def MPTT_ADMIN_LEVEL_INDENT (fw : Fw) : Int :=
  fw.mpttLevelIndentSetting.getD 10

/-- The Django `ChangeList` object as consumed by this module.
`resultHeaders` stands for the output of the framework's
`result_headers(cl)` iterator. -/
structure ChangeList where
  listDisplay : List DisplayItem
  listDisplayLinks : List String
  resultList : List Result
  formsetForms : Option (List Form)
  lookupOpts : LookupOpts
  modelAdmin : ModelAdmin
  isPopup : Bool
  toField : Option String
  urlForResult : Result → String
  modelPkName : String
  resultHeaders : List Header

/-- `cl.lookup_opts.get_field(item)`: callables never name a model field. -/
def clGetField (cl : ChangeList) : DisplayItem → Option Field
  | .name s => cl.lookupOpts.getFieldMap s
  | .call _ => Option.none

/-- The per-header transformation of `stylable_result_headers`: insert a
`col-NAME` class into a truthy `class_attrib`, or create one. -/
def colClassHeader (item : DisplayItem) (h : Header) : Header :=
  if h.classAttrib.text ≠ "" then
    ⟨⟨pyReplace h.classAttrib.text "class=\"" ("class=\"col-" ++ DisplayItem.str item ++ " "), true⟩⟩
  else
    ⟨⟨" class=\"col-" ++ DisplayItem.str item ++ "\"", true⟩⟩

/-- `stylable_result_headers(cl)`: zip `cl.list_display` with the headers
from `result_headers(cl)` and restyle each `class_attrib`. -/
def stylable_result_headers (cl : ChangeList) : List Header :=
  (cl.listDisplay.zip cl.resultHeaders).map fun p => colClassHeader p.1 p.2

/-- The loop of `_get_mptt_indent_field`: the first model field wins and
stops the scan; otherwise the first callable result attribute is
remembered.  `getattr(result, name, None)` only suppresses
`AttributeError`, and a non-string name is a `TypeError`. -/
def mpttIndentLoop (cl : ChangeList) (r : Result) (acc : Option DisplayItem) :
    List DisplayItem → Except PyErr (Option DisplayItem)
  | [] => .ok acc
  | item :: rest =>
    match clGetField cl item with
    | some _ => .ok (some item)
    | Option.none =>
      if acc.isNone then
        match item with
        | .call _ => .error .typeError
        | .name s =>
          match getattrD r s noneAttr with
          | .error e => .error e
          | .ok a =>
            if a.callable then mpttIndentLoop cl r (some item) rest
            else mpttIndentLoop cl r acc rest
      else mpttIndentLoop cl r acc rest

/-- `_get_mptt_indent_field(cl, result)`. -/
def get_mptt_indent_field (cl : ChangeList) (r : Result) :
    Except PyErr (Option DisplayItem) :=
  match r.mpttMeta with
  | Option.none => .ok Option.none
  | some _ => mpttIndentLoop cl r Option.none cl.listDisplay

/-- Fuelled digit expansion; the fuel dominates the number of digits. -/
def natDigitsFuel : Nat → Nat → List Char
  | 0, _ => []
  | fuel + 1, n =>
    if n < 10 then [Nat.digitChar n]
    else natDigitsFuel fuel (n / 10) ++ [Nat.digitChar (n % 10)]

/-- Decimal digits of a natural number, most significant first. -/
def natDigits (n : Nat) : List Char := natDigitsFuel (n + 1) n

/-- Exactly `places` decimal digits of `m`, zero-padded on the left. -/
def padDigits (places m : Nat) : List Char :=
  match places with
  | 0 => []
  | k + 1 => padDigits k (m / 10) ++ [Nat.digitChar (m % 10)]

/-- `round (q * 10 ^ places)` computed on the numerator and denominator:
`⌊(2 * num * 10 ^ places + den) / (2 * den)⌋` with floor division. -/
def scaledRound (places : Nat) (q : ℚ) : Int :=
  Int.fdiv (2 * q.num * ((10 ^ places : Nat) : Int) + (q.den : Int)) (2 * (q.den : Int))

/-- Model of Python `'%.Nf' % q` on an exact rational: fixed-point notation
with exactly `places` digits after the point (none when `places = 0`). -/
def formatFixed (places : Nat) (q : ℚ) : String :=
  let scaled : Int := scaledRound places q
  let sign := if scaled < 0 then "-" else ""
  let m := scaled.natAbs
  if places = 0 then sign ++ String.mk (natDigits m)
  else
    sign ++ String.mk (natDigits (m / 10 ^ places)) ++ "."
      ++ String.mk (padDigits places (m % 10 ^ places))

/-- Python `'%.Nf' % v` on a dynamic value: numeric values format,
anything else is a `TypeError`. -/
def pyFixed (places : Nat) : PyVal → Except PyErr String
  | .dec q => .ok (formatFixed places q)
  | .int n => .ok (formatFixed places (n : ℚ))
  | .bool b => .ok (formatFixed places (if b then 1 else 0))
  | _ => .error .typeError

/-- `dict(f.flatchoices).get(field_val, EMPTY_CHANGELIST_VALUE)`: later
pairs override earlier ones in the dict, hence the reversed search. -/
def flatLookup (choices : List (PyVal × PyVal)) (v : PyVal) : SafeText :=
  match choices.reverse.find? (fun p => p.1 == v) with
  | some p => ⟨pyStr p.2, false⟩
  | Option.none => EMPTY_CHANGELIST_VALUE

/-- `_get_field_repr(cl, result, f)`: type-directed rendering of a model
field column, together with its row classes. -/
def get_field_repr (fw : Fw) (r : Result) (f : Field) :
    Except PyErr (SafeText × Option (List String)) := do
  let fa ← resGetattr r f.attname
  let field_val := fa.value
  if f.isManyToOneRel then
    if field_val ≠ PyVal.none then
      let rel ← resGetattr r f.name
      pure (escapeVal rel.value, some [])
    else
      pure (EMPTY_CHANGELIST_VALUE, some [])
  else if f.isDateField || f.isTimeField then
    let rr :=
      if pyTruthy field_val then
        if f.isDateTimeField then SafeText.mk (capfirst (fw.datetimeFmt field_val)) false
        else if f.isTimeField then SafeText.mk (capfirst (fw.timeFmt field_val)) false
        else SafeText.mk (capfirst (fw.dateFmt field_val)) false
      else EMPTY_CHANGELIST_VALUE
    pure (rr, some ["nowrap"])
  else if f.isBooleanField || f.isNullBooleanField then
    pure (boolean_icon field_val, some [])
  else if f.isDecimalField then
    if field_val ≠ PyVal.none then
      let s ← pyFixed f.decimal_places field_val
      pure (SafeText.mk s false, some [])
    else
      pure (EMPTY_CHANGELIST_VALUE, some [])
  else if f.flatchoices ≠ [] then
    pure (flatLookup f.flatchoices field_val, some [])
  else
    pure (escapeVal field_val, some [])

/-- The attribute resolution of `_get_non_field_repr` (its `try` block up
to the computed value): a callable display item is called with the result;
else a `ModelAdmin` attribute other than `__str__`/`__unicode__` is called
with the result; else the result's own attribute is used, called without
arguments when callable. -/
def resultAttrValue (r : Result) (fn : String) :
    Except PyErr (Bool × Bool × PyVal) := do
  let a ← resGetattr r fn
  if a.callable then do
    let v ← a.callOut
    pure (a.allowTags, a.boolean, v)
  else
    pure (a.allowTags, a.boolean, a.value)

/-- See `resultAttrValue`; this is the full three-way resolution returning
`(allow_tags, boolean, value)`. -/
def resolveNonField (md : ModelAdmin) (r : Result) :
    DisplayItem → Except PyErr (Bool × Bool × PyVal)
  | .call f => (f.run r).map fun v => (f.allowTags, f.boolean, v)
  | .name fn =>
    match md.adminAttrs fn with
    | some a =>
      if fn = "__str__" ∨ fn = "__unicode__" then resultAttrValue r fn
      else (a.run r).map fun v => (a.allowTags, a.boolean, v)
    | Option.none => resultAttrValue r fn

/-- The `try` block of `_get_non_field_repr`: resolve the value, then a
truthy `boolean` marker forces `allow_tags` and renders through
`_boolean_icon`, otherwise the value is `smart_unicode`d. -/
def nonFieldInner (md : ModelAdmin) (r : Result) (item : DisplayItem) :
    Except PyErr (Bool × SafeText) := do
  let f ← resolveNonField md r item
  if f.2.1 then
    pure (true, boolean_icon f.2.2)
  else
    pure (f.1, SafeText.mk (pyStr f.2.2) false)

/-- `_get_non_field_repr(cl, result, field_name)`: `AttributeError` and
`ObjectDoesNotExist` yield `EMPTY_CHANGELIST_VALUE` unescaped; otherwise
the text is escaped unless `allow_tags`.  The second component is the
`None` returned as row classes. -/
def get_non_field_repr (md : ModelAdmin) (r : Result) (item : DisplayItem) :
    Except PyErr (SafeText × Option (List String)) :=
  match nonFieldInner md r item with
  | .ok p =>
    if p.1 then .ok (mark_safe p.2, Option.none)
    else .ok (escapeText p.2, Option.none)
  | .error .attributeError => .ok (EMPTY_CHANGELIST_VALUE, Option.none)
  | .error .objectDoesNotExist => .ok (EMPTY_CHANGELIST_VALUE, Option.none)
  | .error e => .error e

/-- `_get_column_repr(cl, result, field_name)`. -/
def get_column_repr (fw : Fw) (cl : ChangeList) (r : Result) (item : DisplayItem) :
    Except PyErr (SafeText × Option (List String)) :=
  match clGetField cl item with
  | Option.none => get_non_field_repr cl.modelAdmin r item
  | some f => get_field_repr fw r f

/-- Lines 104-105: an empty representation becomes a safe `&nbsp;`. -/
def nbspFix (t : SafeText) : SafeText :=
  if t.text = "" then ⟨"&nbsp;", true⟩ else t

/-- Python `field_name == mptt_indent_field` (`== None` is `False`). -/
def itemEqOpt (item : DisplayItem) : Option DisplayItem → Bool
  | some d => DisplayItem.pyEq item d
  | Option.none => false

/-- The indentation attribute text `style="padding-left:Npx"` with
`N = 5 + MPTT_ADMIN_LEVEL_INDENT * level`. -/
def indentStyle (fw : Fw) (lv : Int) : String :=
  " style=\"padding-left:" ++ toString (5 + MPTT_ADMIN_LEVEL_INDENT fw * lv) ++ "px\""

/-- Lines 108-110: the `style="padding-left:..."` fragment added to the
indent column; reading the level can raise. -/
def mpttRowAttr (fw : Fw) (r : Result) (mif : Option DisplayItem)
    (item : DisplayItem) : Except PyErr String :=
  if itemEqOpt item mif then
    match r.mpttMeta with
    | Option.none => .error .attributeError
    | some levelAttr => do
      let a ← resGetattr r levelAttr
      match a.value with
      | .int lv => pure (indentStyle fw lv)
      | _ => .error .typeError
  else pure ""

/-- Lines 112-114: a truthy configured column class is appended to the row
classes; when `_get_non_field_repr` produced `None` row classes this is
`None.append(...)`, an `AttributeError`. -/
def appendColumnClass (md : ModelAdmin) (item : DisplayItem)
    (rowClasses : Option (List String)) : Except PyErr (Option (List String)) :=
  let columnClass := match item with
    | .name s => md.listColumnClasses s
    | .call _ => Option.none
  match columnClass with
  | some c =>
    if c ≠ "" then
      match rowClasses with
      | some l => .ok (some (l ++ [c]))
      | Option.none => .error .attributeError
    else .ok rowClasses
  | Option.none => .ok rowClasses

/-- Lines 116-117: a truthy row class list becomes a `class` attribute. -/
def classAttrOf : Option (List String) → String
  | some (c :: cs) => " class=\"" ++ String.intercalate " " (c :: cs) ++ "\""
  | _ => ""

/-- Escaping of one character in the model of Python 2 `repr` of a unicode
string. -/
def pyReprChar (c : Char) : String :=
  if c = '\\' then "\\\\"
  else if c = squoteChar then "\\" ++ String.singleton squoteChar
  else String.singleton c

/-- Model of Python 2 `repr` of a unicode string: `u'...'`. -/
def pyReprUnicode (s : String) : String :=
  "u" ++ String.singleton squoteChar ++ String.join (s.data.map pyReprChar)
    ++ String.singleton squoteChar

/-- Lines 126-135: the `onclick` attribute of a popup link, built from the
serialized value of `cl.to_field` (when truthy) or the pk attname. -/
def popupLinkAttr (cl : ChangeList) (r : Result) : String :=
  if cl.isPopup then
    let attr := match cl.toField with
      | some t => if t ≠ "" then t else cl.lookupOpts.pkAttname
      | Option.none => cl.lookupOpts.pkAttname
    let value := r.serializableValue attr
    let rid := (pyReprUnicode (pyStr value)).drop 1
    " onclick=\"opener.dismissRelatedLookupPopup(window, " ++ rid
      ++ "); return false;\""
  else ""

/-- The format string of line 137. -/
def linkCellStr (tag rowAttr url linkAttr content : String) : String :=
  "<" ++ tag ++ rowAttr ++ "><a href=\"" ++ url ++ "\"" ++ linkAttr ++ ">"
    ++ content ++ "</a></" ++ tag ++ ">"

/-- The format string of line 149 (and of the extra form cell of line 152). -/
def tdCellStr (rowAttr content : String) : String :=
  "<td" ++ rowAttr ++ ">" ++ content ++ "</td>"

/-- Python `field_name in cl.list_display_links`. -/
def itemInLinks (item : DisplayItem) (links : List String) : Bool :=
  match item with
  | .name s => links.contains s
  | .call _ => false

/-- The link condition of line 120. -/
def linkCond (cl : ChangeList) (first : Bool) (item : DisplayItem) : Bool :=
  (first && cl.listDisplayLinks.isEmpty) || itemInLinks item cl.listDisplayLinks

/-- Python `field_name in form.fields`. -/
def itemInFormFields (item : DisplayItem) (f : Form) : Bool :=
  match item with
  | .name s => f.fields.contains s
  | .call _ => false

/-- Line 145: the form field's errors followed by its widget, safe. -/
def formFieldRepr (f : Form) (item : DisplayItem) : SafeText :=
  ⟨f.fieldErrors (DisplayItem.str item) ++ f.renderField (DisplayItem.str item), true⟩

/-- Lines 143-147: the content of a non-link cell. -/
def cellContent (form : Option Form) (item : DisplayItem) (rr : SafeText) : SafeText :=
  match form with
  | some f => if itemInFormFields item f then formFieldRepr f item
              else conditional_escape rr
  | Option.none => conditional_escape rr

/-- One iteration of the `for field_name in cl.list_display` loop of
`stylable_items_for_result`: returns the rendered cell and the updated
`first` flag. -/
def styItem (fw : Fw) (cl : ChangeList) (r : Result) (form : Option Form)
    (mif : Option DisplayItem) (first : Bool) (item : DisplayItem) :
    Except PyErr (String × Bool) := do
  let rp ← get_column_repr fw cl r item
  let resultRepr := nbspFix rp.1
  let indentAttr ← mpttRowAttr fw r mif item
  let rowClasses ← appendColumnClass cl.modelAdmin item rp.2
  let rowAttr := indentAttr ++ classAttrOf rowClasses
  if linkCond cl first item then
    pure (linkCellStr (if first then "th" else "td") rowAttr (cl.urlForResult r)
      (popupLinkAttr cl r) (conditional_escape resultRepr).text, false)
  else
    pure (tdCellStr rowAttr (cellContent form item resultRepr).text, first)

/-- The whole `for` loop of `stylable_items_for_result`, threading `first`. -/
def styCells (fw : Fw) (cl : ChangeList) (r : Result) (form : Option Form)
    (mif : Option DisplayItem) : Bool → List DisplayItem → Except PyErr (List String)
  | _, [] => .ok []
  | first, item :: rest => do
    let p ← styItem fw cl r form mif first item
    let tail ← styCells fw cl r form mif p.2 rest
    pure (p.1 :: tail)

/-- `stylable_items_for_result(cl, result, form)`: all cells of one row,
with the extra primary-key cell when a form is present. -/
def stylable_items_for_result (fw : Fw) (cl : ChangeList) (r : Result)
    (form : Option Form) : Except PyErr (List String) := do
  let mif ← get_mptt_indent_field cl r
  let cells ← styCells fw cl r form mif true cl.listDisplay
  match form with
  | some f => pure (cells ++ [tdCellStr "" (f.renderField cl.modelPkName)])
  | Option.none => pure cells

/-- The `if cl.formset` branch of `stylable_results`: one row per
`(result, form)` pair. -/
def styRowsZip (fw : Fw) (cl : ChangeList) :
    List (Result × Form) → Except PyErr (List (List String))
  | [] => .ok []
  | p :: rest => do
    let row ← stylable_items_for_result fw cl p.1 (some p.2)
    let tail ← styRowsZip fw cl rest
    pure (row :: tail)

/-- The `else` branch of `stylable_results`: one row per result. -/
def styRowsPlain (fw : Fw) (cl : ChangeList) :
    List Result → Except PyErr (List (List String))
  | [] => .ok []
  | r :: rest => do
    let row ← stylable_items_for_result fw cl r Option.none
    let tail ← styRowsPlain fw cl rest
    pure (row :: tail)

/-- `stylable_results(cl)`. -/
def stylable_results (fw : Fw) (cl : ChangeList) : Except PyErr (List (List String)) :=
  match cl.formsetForms with
  | some forms => styRowsZip fw cl (cl.resultList.zip forms)
  | Option.none => styRowsPlain fw cl cl.resultList

/-! ### Lemmas about the `str.replace` model -/

lemma replaceFuel_congr (pat rep : List Char) :
    ∀ (f1 : Nat) (s : List Char) (f2 : Nat), s.length ≤ f1 → s.length ≤ f2 →
      replaceFuel pat rep f1 s = replaceFuel pat rep f2 s := by
  intro f1
  induction f1 with
  | zero =>
    intro s f2 h1 h2
    have hs : s = [] := by
      cases s with
      | nil => rfl
      | cons c cs => simp at h1
    subst hs
    cases f2 <;> rfl
  | succ k ih =>
    intro s f2 h1 h2
    cases s with
    | nil => cases f2 <;> rfl
    | cons c cs =>
      cases f2 with
      | zero => simp at h2
      | succ k2 =>
        rw [replaceFuel, replaceFuel]
        by_cases h : pat ≠ [] ∧ pat <+: (c :: cs)
        · rw [if_pos h, if_pos h]
          congr 1
          apply ih
          · calc (List.drop (pat.length - 1) cs).length ≤ cs.length := by
                  simp [List.length_drop]
              _ ≤ k := by simpa using h1
          · calc (List.drop (pat.length - 1) cs).length ≤ cs.length := by
                  simp [List.length_drop]
              _ ≤ k2 := by simpa using h2
        · rw [if_neg h, if_neg h]
          congr 1
          apply ih
          · simpa using h1
          · simpa using h2

lemma replaceAllAux_cons (pat rep : List Char) (c : Char) (cs : List Char) :
    replaceAllAux pat rep (c :: cs) =
      if pat ≠ [] ∧ pat <+: (c :: cs) then
        rep ++ replaceAllAux pat rep (List.drop (pat.length - 1) cs)
      else c :: replaceAllAux pat rep cs := by
  show replaceFuel pat rep (cs.length + 1) (c :: cs) = _
  rw [replaceFuel]
  by_cases h : pat ≠ [] ∧ pat <+: (c :: cs)
  · rw [if_pos h, if_pos h]
    congr 1
    exact replaceFuel_congr pat rep cs.length _ _
      (by simp [List.length_drop]) (Nat.le_refl _)
  · rw [if_neg h, if_neg h]
    rfl

lemma replaceAllAux_cons_ne (pat rep : List Char) (c : Char) (cs : List Char)
    (h : ¬ pat <+: (c :: cs)) :
    replaceAllAux pat rep (c :: cs) = c :: replaceAllAux pat rep cs := by
  rw [replaceAllAux_cons, if_neg]
  rintro ⟨-, hp⟩
  exact h hp

lemma replaceAllAux_cons_not_head (pat rep : List Char) (c : Char) (cs : List Char)
    (h : pat.head? ≠ some c) :
    replaceAllAux pat rep (c :: cs) = c :: replaceAllAux pat rep cs := by
  cases pat with
  | nil => rw [replaceAllAux_cons, if_neg]; simp
  | cons p ps =>
    apply replaceAllAux_cons_ne
    intro hp
    rw [List.cons_prefix_cons] at hp
    exact h (by simp [hp.1])

lemma replaceAllAux_no_occ (pat rep : List Char) :
    ∀ s : List Char, ¬ pat <:+: s → replaceAllAux pat rep s = s := by
  intro s
  induction s with
  | nil => intro _; rfl
  | cons c cs ih =>
    intro h
    rw [replaceAllAux_cons_ne]
    · rw [ih fun hin => h (List.infix_cons hin)]
    · exact fun hp => h hp.isInfix

lemma replaceAllAux_head (pat rep t : List Char) (hp : pat ≠ []) :
    replaceAllAux pat rep (pat ++ t) = rep ++ replaceAllAux pat rep t := by
  cases pat with
  | nil => exact absurd rfl hp
  | cons p ps =>
    rw [List.cons_append, replaceAllAux_cons, if_pos]
    · have hd : List.drop ((p :: ps).length - 1) (ps ++ t) = t := by
        simp only [List.length_cons, Nat.add_sub_cancel]
        exact List.drop_left ps t
      rw [hd]
    · exact ⟨by simp, by rw [← List.cons_append]; exact List.prefix_append _ _⟩

/-- A string enclosed between two others is an infix of the concatenation. -/
lemma infix_of_decomp (a b c : String) : b.data <:+: (a ++ b ++ c).data :=
  ⟨a.data, c.data, by simp [String.data_append]⟩


lemma pyReplace_classAttrib (nm rest : String)
    (hno : ¬ ("class=\"".data <:+: rest.data)) :
    pyReplace (" class=\"" ++ rest) "class=\"" ("class=\"col-" ++ nm ++ " ")
      = " class=\"col-" ++ nm ++ " " ++ rest := by
  apply String.ext
  show replaceAllAux "class=\"".data ("class=\"col-" ++ nm ++ " ").data
      (" class=\"" ++ rest).data = _
  have hhd : ("class=\"".data).head? ≠ some ' ' := by decide
  have hsplit : (" class=\"" ++ rest).data = ' ' :: ("class=\"".data ++ rest.data) := by
    rw [String.data_append]
    have hsp : " class=\"".data = ' ' :: "class=\"".data := by decide
    rw [hsp, List.cons_append]
  rw [hsplit, replaceAllAux_cons_not_head _ _ _ _ hhd,
    replaceAllAux_head _ _ _ (by decide),
    replaceAllAux_no_occ _ _ _ hno]
  have hfold : (" class=\"col-" : String).data = ' ' :: ("class=\"col-" : String).data := by
    decide
  simp only [String.data_append, List.append_assoc, hfold, List.cons_append]

/-! ### Claim C1 -/

lemma colClassHeader_of_empty (item : DisplayItem) (h : Header)
    (he : h.classAttrib.text = "") :
    colClassHeader item h = ⟨⟨" class=\"col-" ++ item.str ++ "\"", true⟩⟩ := by
  unfold colClassHeader
  rw [he]
  simp

lemma colClassHeader_of_nonempty (item : DisplayItem) (h : Header) (rest : String)
    (he : h.classAttrib.text = " class=\"" ++ rest)
    (hno : ¬ ("class=\"".data <:+: rest.data)) :
    (colClassHeader item h).classAttrib.text
      = " class=\"col-" ++ item.str ++ " " ++ rest := by
  unfold colClassHeader
  rw [if_pos]
  · show pyReplace h.classAttrib.text _ _ = _
    rw [he, pyReplace_classAttrib _ _ hno]
  · rw [he]
    intro h0
    have h1 := congrArg String.data h0
    rw [String.data_append] at h1
    have h9 : " class=\"".data ≠ ([] : List Char) := by decide
    exact h9 (List.append_eq_nil.mp h1).1

lemma colClass_infix_empty (s : String) :
    ("col-" ++ s).data <:+: (" class=\"col-" ++ s ++ "\"" : String).data := by
  refine ⟨(" class=\"" : String).data, ("\"" : String).data, ?_⟩
  have hfold : (" class=\"" : String).data ++ ("col-" : String).data
      = (" class=\"col-" : String).data := by decide
  simp only [String.data_append, ← List.append_assoc]
  rw [hfold]

lemma colClass_infix_nonempty (s rest : String) :
    ("col-" ++ s).data <:+: (" class=\"col-" ++ s ++ " " ++ rest : String).data := by
  refine ⟨(" class=\"" : String).data, (" " ++ rest : String).data, ?_⟩
  have hfold : (" class=\"" : String).data ++ ("col-" : String).data
      = (" class=\"col-" : String).data := by decide
  simp only [String.data_append, ← List.append_assoc]
  rw [hfold]

/-- Claim C1: `stylable_result_headers` yields one header per entry of
`cl.list_display`, pairing them in order; the i-th header's `class_attrib`
contains the class `col-<field_name>` for the i-th display entry.  When
`result_headers(cl)` already produced a truthy `class_attrib` (which the
framework always writes as ` class="..."`), the `col-` class is inserted
immediately after `class="`; otherwise the `class_attrib` becomes exactly
` class="col-<field_name>"`. -/
theorem C1_stylable_result_headers (cl : ChangeList)
    (hlen : cl.resultHeaders.length = cl.listDisplay.length) :
    (stylable_result_headers cl).length = cl.listDisplay.length ∧
    ∀ i (hi : i < cl.listDisplay.length) (hih : i < cl.resultHeaders.length)
      (hio : i < (stylable_result_headers cl).length),
      ((cl.resultHeaders.get ⟨i, hih⟩).classAttrib.text = "" →
        ((stylable_result_headers cl).get ⟨i, hio⟩).classAttrib.text
            = " class=\"col-" ++ (cl.listDisplay.get ⟨i, hi⟩).str ++ "\"" ∧
        ("col-" ++ (cl.listDisplay.get ⟨i, hi⟩).str).data
            <:+: ((stylable_result_headers cl).get ⟨i, hio⟩).classAttrib.text.data) ∧
      (∀ rest : String,
        (cl.resultHeaders.get ⟨i, hih⟩).classAttrib.text = " class=\"" ++ rest →
        ¬ ("class=\"".data <:+: rest.data) →
        ((stylable_result_headers cl).get ⟨i, hio⟩).classAttrib.text
            = " class=\"col-" ++ (cl.listDisplay.get ⟨i, hi⟩).str ++ " " ++ rest ∧
        ("col-" ++ (cl.listDisplay.get ⟨i, hi⟩).str).data
            <:+: ((stylable_result_headers cl).get ⟨i, hio⟩).classAttrib.text.data) := by
  have hlen2 : (stylable_result_headers cl).length = cl.listDisplay.length := by
    simp [stylable_result_headers, hlen]
  refine ⟨hlen2, ?_⟩
  intro i hi hih hio
  have key : (stylable_result_headers cl).get ⟨i, hio⟩
      = colClassHeader (cl.listDisplay.get ⟨i, hi⟩) (cl.resultHeaders.get ⟨i, hih⟩) := by
    simp [stylable_result_headers, List.get_eq_getElem, List.getElem_map, List.getElem_zip]
  constructor
  · intro he
    rw [key, colClassHeader_of_empty _ _ he]
    exact ⟨rfl, colClass_infix_empty _⟩
  · intro rest he hno
    rw [key, colClassHeader_of_nonempty _ _ rest he hno]
    exact ⟨rfl, colClass_infix_nonempty _ _⟩

/-! ### Claim C3: type dispatch of `_get_field_repr` -/

/-- Claim C3: for a column that resolves to a model field, `_get_field_repr`
dispatches on the field type: a many-to-one relation renders the escaped
related object (`EMPTY_CHANGELIST_VALUE` when the raw value is `None`);
date/time fields render through the framework date formatters with the
first letter capitalized and add the row class `nowrap` even when the value
is empty; boolean and null-boolean fields render via `_boolean_icon`; a
field with `flatchoices` renders the display label of the stored value,
falling back to `EMPTY_CHANGELIST_VALUE` when the value is not among the
choices; every other field renders the escaped raw value. -/
theorem C3_get_field_repr (fw : Fw) (r : Result) (f : Field) (a : Attr)
    (ha : r.attrs f.attname = .found a) :
    (f.isManyToOneRel = true → a.value = PyVal.none →
      get_field_repr fw r f = .ok (EMPTY_CHANGELIST_VALUE, some [])) ∧
    (∀ b : Attr, f.isManyToOneRel = true → a.value ≠ PyVal.none →
      r.attrs f.name = .found b →
      get_field_repr fw r f = .ok (escapeVal b.value, some [])) ∧
    (f.isManyToOneRel = false → f.isDateField = true → f.isDateTimeField = true →
      get_field_repr fw r f = .ok
        ((if pyTruthy a.value then SafeText.mk (capfirst (fw.datetimeFmt a.value)) false
          else EMPTY_CHANGELIST_VALUE), some ["nowrap"])) ∧
    (f.isManyToOneRel = false → f.isDateField = false → f.isTimeField = true →
      f.isDateTimeField = false →
      get_field_repr fw r f = .ok
        ((if pyTruthy a.value then SafeText.mk (capfirst (fw.timeFmt a.value)) false
          else EMPTY_CHANGELIST_VALUE), some ["nowrap"])) ∧
    (f.isManyToOneRel = false → f.isDateField = true → f.isDateTimeField = false →
      f.isTimeField = false →
      get_field_repr fw r f = .ok
        ((if pyTruthy a.value then SafeText.mk (capfirst (fw.dateFmt a.value)) false
          else EMPTY_CHANGELIST_VALUE), some ["nowrap"])) ∧
    (f.isManyToOneRel = false → f.isDateField = false → f.isTimeField = false →
      (f.isBooleanField = true ∨ f.isNullBooleanField = true) →
      get_field_repr fw r f = .ok (boolean_icon a.value, some [])) ∧
    (f.isManyToOneRel = false → f.isDateField = false → f.isTimeField = false →
      f.isBooleanField = false → f.isNullBooleanField = false →
      f.isDecimalField = false → f.flatchoices ≠ [] →
      get_field_repr fw r f = .ok (flatLookup f.flatchoices a.value, some []) ∧
      ((∀ p ∈ f.flatchoices, p.1 ≠ a.value) →
        flatLookup f.flatchoices a.value = EMPTY_CHANGELIST_VALUE)) ∧
    (f.isManyToOneRel = false → f.isDateField = false → f.isTimeField = false →
      f.isBooleanField = false → f.isNullBooleanField = false →
      f.isDecimalField = false → f.flatchoices = [] →
      get_field_repr fw r f = .ok (escapeVal a.value, some [])) := by
  refine ⟨?_, ?_, ?_, ?_, ?_, ?_, ?_, ?_⟩
  · intro hm hv
    simp [get_field_repr, resGetattr, ha, hm, hv, bind, Except.bind, pure, Except.pure]
  · intro b hm hv hb
    simp [get_field_repr, resGetattr, ha, hm, hv, hb, bind, Except.bind, pure, Except.pure]
  · intro hm hd hdt
    simp [get_field_repr, resGetattr, ha, hm, hd, hdt, bind, Except.bind, pure, Except.pure]
  · intro hm hd ht hdt
    simp [get_field_repr, resGetattr, ha, hm, hd, ht, hdt, bind, Except.bind, pure, Except.pure]
  · intro hm hd hdt ht
    simp [get_field_repr, resGetattr, ha, hm, hd, hdt, ht, bind, Except.bind, pure, Except.pure]
  · intro hm hd ht hb
    rcases hb with hb | hb <;>
      simp [get_field_repr, resGetattr, ha, hm, hd, ht, hb, bind, Except.bind, pure, Except.pure]
  · intro hm hd ht hb hnb hdec hfc
    constructor
    · simp [get_field_repr, resGetattr, ha, hm, hd, ht, hb, hnb, hdec, hfc,
        bind, Except.bind, pure, Except.pure]
    · intro hnone
      unfold flatLookup
      have : f.flatchoices.reverse.find? (fun p => p.1 == a.value) = Option.none := by
        apply List.find?_eq_none.mpr
        intro p hp
        simpa using hnone p (List.mem_reverse.mp hp)
      rw [this]
  · intro hm hd ht hb hnb hdec hfc
    simp [get_field_repr, resGetattr, ha, hm, hd, ht, hb, hnb, hdec, hfc,
      bind, Except.bind, pure, Except.pure]

/-! ### Claim C7: decimal fields -/

lemma padDigits_length (places : Nat) : ∀ m, (padDigits places m).length = places := by
  induction places with
  | zero => intro m; rfl
  | succ k ih =>
    intro m
    simp [padDigits, ih]

lemma digitChar_isDigit (d : Nat) (h : d < 10) : (Nat.digitChar d).isDigit = true := by
  interval_cases d <;> decide

lemma padDigits_isDigit (places : Nat) :
    ∀ m c, c ∈ padDigits places m → c.isDigit = true := by
  induction places with
  | zero => intro m c hc; simp [padDigits] at hc
  | succ k ih =>
    intro m c hc
    simp only [padDigits, List.mem_append, List.mem_singleton] at hc
    rcases hc with hc | hc
    · exact ih _ _ hc
    · rw [hc]
      exact digitChar_isDigit _ (Nat.mod_lt _ (by omega))

lemma natDigitsFuel_isDigit (fuel : Nat) :
    ∀ n c, c ∈ natDigitsFuel fuel n → c.isDigit = true := by
  induction fuel with
  | zero => intro n c hc; simp [natDigitsFuel] at hc
  | succ k ih =>
    intro n c hc
    rw [natDigitsFuel] at hc
    by_cases h : n < 10
    · simp [h] at hc
      rw [hc]
      exact digitChar_isDigit _ h
    · simp [h, List.mem_append] at hc
      rcases hc with hc | hc
      · exact ih _ c hc
      · rw [hc]
        exact digitChar_isDigit _ (Nat.mod_lt _ (by omega))

lemma natDigits_isDigit (n : Nat) : ∀ c ∈ natDigits n, c.isDigit = true :=
  fun c hc => natDigitsFuel_isDigit (n + 1) n c hc

lemma isDigit_ne_dot (c : Char) (h : c.isDigit = true) : c ≠ '.' := by
  intro hc
  rw [hc] at h
  exact absurd h (by decide)

/-- Claim C7: for a `DecimalField` with a non-`None` value the rendered
representation is the value in fixed-point notation with exactly
`decimal_places` digits after the decimal point, zero-padded; a `None`
value renders as `EMPTY_CHANGELIST_VALUE`. -/
theorem C7_decimal_field (fw : Fw) (r : Result) (f : Field) (a : Attr) (q : ℚ)
    (ha : r.attrs f.attname = .found a)
    (hm : f.isManyToOneRel = false) (hd : f.isDateField = false)
    (ht : f.isTimeField = false) (hb : f.isBooleanField = false)
    (hnb : f.isNullBooleanField = false) (hdec : f.isDecimalField = true) :
    (a.value = PyVal.dec q →
      get_field_repr fw r f = .ok (SafeText.mk (formatFixed f.decimal_places q) false, some [])) ∧
    (a.value = PyVal.none →
      get_field_repr fw r f = .ok (EMPTY_CHANGELIST_VALUE, some [])) ∧
    (0 < f.decimal_places →
      ∃ ip fp : String, formatFixed f.decimal_places q = ip ++ "." ++ fp ∧
        fp.length = f.decimal_places ∧
        (∀ c ∈ fp.data, c.isDigit = true) ∧
        '.' ∉ ip.data) := by
  refine ⟨?_, ?_, ?_⟩
  · intro hv
    simp [get_field_repr, resGetattr, ha, hm, hd, ht, hb, hnb, hdec, hv, pyFixed,
      bind, Except.bind, pure, Except.pure]
  · intro hv
    simp [get_field_repr, resGetattr, ha, hm, hd, ht, hb, hnb, hdec, hv,
      bind, Except.bind, pure, Except.pure]
  · intro hp
    unfold formatFixed
    rw [if_neg (by omega)]
    refine ⟨(if scaledRound f.decimal_places q < 0 then "-" else "")
        ++ String.mk (natDigits ((scaledRound f.decimal_places q).natAbs / 10 ^ f.decimal_places)),
      String.mk (padDigits f.decimal_places ((scaledRound f.decimal_places q).natAbs % 10 ^ f.decimal_places)),
      rfl, ?_, ?_, ?_⟩
    · show (padDigits _ _).length = _
      exact padDigits_length _ _
    · intro c hc
      exact padDigits_isDigit _ _ _ hc
    · intro hmem
      rw [String.data_append] at hmem
      rcases List.mem_append.mp hmem with hmem | hmem
      · by_cases hneg : scaledRound f.decimal_places q < 0
        · rw [if_pos hneg] at hmem
          exact absurd hmem (by decide)
        · rw [if_neg hneg] at hmem
          exact absurd hmem (by decide)
      · exact isDigit_ne_dot _ (natDigits_isDigit _ _ hmem) rfl

/-! ### Claims C8 and C9: non-field columns -/

/-- Claim C8: when computing a non-field column's value raises
`AttributeError` or `ObjectDoesNotExist`, `_get_non_field_repr` swallows the
exception and returns `EMPTY_CHANGELIST_VALUE` (an unsafe, unescaped plain
string) with `None` row classes; the escaping / `allow_tags` branch is not
applied in that case. -/
theorem C8_non_field_error (md : ModelAdmin) (r : Result) (item : DisplayItem)
    (e : PyErr) (he : resolveNonField md r item = .error e)
    (hc : e = PyErr.attributeError ∨ e = PyErr.objectDoesNotExist) :
    get_non_field_repr md r item = .ok (EMPTY_CHANGELIST_VALUE, Option.none) ∧
    EMPTY_CHANGELIST_VALUE.safe = false ∧
    EMPTY_CHANGELIST_VALUE ≠ escapeText EMPTY_CHANGELIST_VALUE := by
  have hinner : nonFieldInner md r item = .error e := by
    simp [nonFieldInner, he, bind, Except.bind]
  refine ⟨?_, rfl, by decide⟩
  rcases hc with hc | hc <;>
    · rw [hc] at hinner
      simp [get_non_field_repr, hinner]

/-- Claim C9: when a non-field column's value is computed without error,
the text is HTML-escaped unless the resolved attribute has a truthy
`allow_tags` or `boolean` marker; `boolean` implies `allow_tags` and renders
through `_boolean_icon`; with `allow_tags` the text is marked safe and
emitted unescaped. -/
theorem C9_non_field_escape (md : ModelAdmin) (r : Result) (item : DisplayItem)
    (allowT bool_ : Bool) (v : PyVal)
    (h : resolveNonField md r item = .ok (allowT, bool_, v)) :
    (bool_ = true →
      get_non_field_repr md r item = .ok (boolean_icon v, Option.none) ∧
      (boolean_icon v).safe = true) ∧
    (bool_ = false → allowT = true →
      get_non_field_repr md r item = .ok (SafeText.mk (pyStr v) true, Option.none)) ∧
    (bool_ = false → allowT = false →
      get_non_field_repr md r item
        = .ok (SafeText.mk (htmlEscape (pyStr v)) true, Option.none)) := by
  refine ⟨?_, ?_, ?_⟩
  · intro hb
    subst hb
    have hinner : nonFieldInner md r item = .ok (true, boolean_icon v) := by
      simp [nonFieldInner, h, bind, Except.bind, pure, Except.pure]
    refine ⟨?_, rfl⟩
    simp only [get_non_field_repr, hinner, mark_safe, if_true]
    simp [boolean_icon]
  · intro hb hat
    subst hb; subst hat
    have hinner : nonFieldInner md r item = .ok (true, SafeText.mk (pyStr v) false) := by
      simp [nonFieldInner, h, bind, Except.bind, pure, Except.pure]
    simp [get_non_field_repr, hinner, mark_safe]
  · intro hb hat
    subst hb; subst hat
    have hinner : nonFieldInner md r item = .ok (false, SafeText.mk (pyStr v) false) := by
      simp [nonFieldInner, h, bind, Except.bind, pure, Except.pure]
    simp [get_non_field_repr, hinner, escapeText]

/-! ### Shape of the cells produced by the row loop -/

/-- How the `first` flag evolves over one column. -/
def stepFirst (cl : ChangeList) (first : Bool) (item : DisplayItem) : Bool :=
  if linkCond cl first item then false else first

/-- The value of `first` after a prefix of the display columns. -/
def firstAfter (cl : ChangeList) (first : Bool) : List DisplayItem → Bool
  | [] => first
  | item :: rest => firstAfter cl (stepFirst cl first item) rest

lemma styItem_ok_shape (fw : Fw) (cl : ChangeList) (r : Result) (form : Option Form)
    (mif : Option DisplayItem) (first : Bool) (item : DisplayItem)
    (cell : String) (f2 : Bool)
    (h : styItem fw cl r form mif first item = .ok (cell, f2)) :
    ∃ rp ia rcs,
      get_column_repr fw cl r item = .ok rp ∧
      mpttRowAttr fw r mif item = .ok ia ∧
      appendColumnClass cl.modelAdmin item rp.2 = .ok rcs ∧
      ((linkCond cl first item = true ∧ f2 = false ∧
          cell = linkCellStr (if first then "th" else "td") (ia ++ classAttrOf rcs)
            (cl.urlForResult r) (popupLinkAttr cl r) (conditional_escape (nbspFix rp.1)).text)
       ∨ (linkCond cl first item = false ∧ f2 = first ∧
          cell = tdCellStr (ia ++ classAttrOf rcs) (cellContent form item (nbspFix rp.1)).text)) := by
  unfold styItem at h
  cases hc : get_column_repr fw cl r item with
  | error e => rw [hc] at h; simp [bind, Except.bind] at h
  | ok rp =>
    rw [hc] at h
    simp only [bind, Except.bind] at h
    cases hi : mpttRowAttr fw r mif item with
    | error e => rw [hi] at h; simp at h
    | ok ia =>
      rw [hi] at h
      simp only at h
      cases ha : appendColumnClass cl.modelAdmin item rp.2 with
      | error e => rw [ha] at h; simp at h
      | ok rcs =>
        rw [ha] at h
        simp only at h
        refine ⟨rp, ia, rcs, rfl, rfl, ha, ?_⟩
        by_cases hl : linkCond cl first item
        · rw [if_pos hl] at h
          simp only [pure, Except.pure, Except.ok.injEq, Prod.mk.injEq] at h
          exact Or.inl ⟨hl, h.2.symm, h.1.symm⟩
        · rw [if_neg hl] at h
          simp only [pure, Except.pure, Except.ok.injEq, Prod.mk.injEq] at h
          exact Or.inr ⟨by simpa using hl, h.2.symm, h.1.symm⟩

lemma styItem_ok_snd (fw : Fw) (cl : ChangeList) (r : Result) (form : Option Form)
    (mif : Option DisplayItem) (first : Bool) (item : DisplayItem)
    (cell : String) (f2 : Bool)
    (h : styItem fw cl r form mif first item = .ok (cell, f2)) :
    f2 = stepFirst cl first item := by
  obtain ⟨rp, ia, rcs, -, -, -, hsh⟩ := styItem_ok_shape fw cl r form mif first item cell f2 h
  unfold stepFirst
  rcases hsh with ⟨hl, hf, -⟩ | ⟨hl, hf, -⟩
  · rw [if_pos hl, hf]
  · rw [if_neg (by simp [hl]), hf]

lemma styCells_ok (fw : Fw) (cl : ChangeList) (r : Result) (form : Option Form)
    (mif : Option DisplayItem) :
    ∀ (l : List DisplayItem) (first : Bool) (cells : List String),
      styCells fw cl r form mif first l = .ok cells →
      cells.length = l.length ∧
      ∀ i (hi : i < l.length) (hic : i < cells.length),
        ∃ f2, styItem fw cl r form mif (firstAfter cl first (l.take i)) (l.get ⟨i, hi⟩)
            = .ok (cells.get ⟨i, hic⟩, f2) := by
  intro l
  induction l with
  | nil =>
    intro first cells h
    simp only [styCells, Except.ok.injEq] at h
    subst h
    exact ⟨rfl, fun i hi => absurd hi (by simp)⟩
  | cons a l ih =>
    intro first cells h
    unfold styCells at h
    cases hs : styItem fw cl r form mif first a with
    | error e => rw [hs] at h; simp [bind, Except.bind] at h
    | ok p =>
      rw [hs] at h
      simp only [bind, Except.bind] at h
      cases ht : styCells fw cl r form mif p.2 l with
      | error e => rw [ht] at h; simp at h
      | ok tail =>
        rw [ht] at h
        simp only [pure, Except.pure, Except.ok.injEq] at h
        subst h
        obtain ⟨hlen, hget⟩ := ih p.2 tail ht
        refine ⟨by simp [hlen], ?_⟩
        intro i hi hic
        cases i with
        | zero =>
          refine ⟨p.2, ?_⟩
          show styItem fw cl r form mif (firstAfter cl first []) a = .ok (p.1, p.2)
          simpa using hs
        | succ j =>
          have hf2 : p.2 = stepFirst cl first a :=
            styItem_ok_snd fw cl r form mif first a p.1 p.2 (by simpa using hs)
          have hj : j < l.length := by simpa using hi
          have hjc : j < tail.length := by simpa using hic
          obtain ⟨f2, hf⟩ := hget j hj hjc
          refine ⟨f2, ?_⟩
          show styItem fw cl r form mif (firstAfter cl (stepFirst cl first a) (l.take j))
            (l.get ⟨j, hj⟩) = _
          rw [← hf2]
          exact hf

lemma itemInLinks_nil (item : DisplayItem) : itemInLinks item [] = false := by
  cases item <;> simp [itemInLinks]

lemma firstAfter_no_links (cl : ChangeList) (hl : cl.listDisplayLinks = []) :
    ∀ (l : List DisplayItem) (first : Bool),
      firstAfter cl first l = (first && l.isEmpty) := by
  intro l
  induction l with
  | nil => intro first; simp [firstAfter]
  | cons a rest ih =>
    intro first
    rw [firstAfter, ih]
    have hstep : stepFirst cl first a = false := by
      unfold stepFirst linkCond
      rw [hl, itemInLinks_nil]
      cases first <;> simp
    rw [hstep]
    simp

lemma firstAfter_links (cl : ChangeList) (hl : cl.listDisplayLinks ≠ []) :
    ∀ (l : List DisplayItem) (first : Bool),
      firstAfter cl first l
        = (first && l.all fun it => !(itemInLinks it cl.listDisplayLinks)) := by
  intro l
  induction l with
  | nil => intro first; simp [firstAfter]
  | cons a rest ih =>
    intro first
    rw [firstAfter, ih]
    have hempty : cl.listDisplayLinks.isEmpty = false := by
      cases hcase : cl.listDisplayLinks with
      | nil => exact absurd hcase hl
      | cons x xs => simp
    have hstep : stepFirst cl first a
        = (first && !(itemInLinks a cl.listDisplayLinks)) := by
      unfold stepFirst linkCond
      rw [hempty]
      cases hin : itemInLinks a cl.listDisplayLinks <;> cases first <;> simp
    rw [hstep]
    simp [Bool.and_assoc]

/-! ### Claim C5: link cells -/

lemma take_isEmpty_false (l : List DisplayItem) (i : Nat) (h0 : 0 < i)
    (hl : 0 < l.length) : (l.take i).isEmpty = false := by
  cases hcase : l.take i with
  | nil =>
    have hlen := congrArg List.length hcase
    simp only [List.length_take, List.length_nil] at hlen
    rcases Nat.min_eq_zero_iff.mp hlen with h | h <;> omega
  | cons x xs => simp

lemma firstAfter_true_iff (cl : ChangeList) (l : List DisplayItem) (i : Nat)
    (hi : i < l.length) :
    firstAfter cl true (l.take i) = true
      ↔ ∀ j (hj : j < i), linkCond cl (firstAfter cl true (l.take j))
          (l.get ⟨j, by omega⟩) = false := by
  by_cases hnl : cl.listDisplayLinks = []
  · rw [firstAfter_no_links cl hnl]
    constructor
    · intro hc j hj
      have hie : (l.take i).isEmpty = true := by simpa using hc
      have hzero : i = 0 := by
        by_contra h0
        rw [take_isEmpty_false l i (Nat.pos_of_ne_zero h0)
          (Nat.lt_of_le_of_lt (Nat.zero_le i) hi)] at hie
        exact absurd hie (by simp)
      exact absurd hj (by omega)
    · intro hall
      by_contra hc
      have hi0 : 0 < i := by
        rcases Nat.eq_zero_or_pos i with h0 | h0
        · subst h0; simp at hc
        · exact h0
      have hcond := hall 0 hi0
      unfold linkCond at hcond
      rw [show l.take 0 = [] from rfl, firstAfter, hnl, itemInLinks_nil] at hcond
      simp at hcond
  · have hempty : cl.listDisplayLinks.isEmpty = false := by
      cases hcase : cl.listDisplayLinks with
      | nil => exact absurd hcase hnl
      | cons x xs => simp
    rw [firstAfter_links cl hnl]
    constructor
    · intro hc j hj
      unfold linkCond
      rw [hempty]
      have hall : ∀ it ∈ l.take i, !(itemInLinks it cl.listDisplayLinks) := by
        simpa using hc
      have hjl : j < l.length := by omega
      have hmem : l.get ⟨j, hjl⟩ ∈ l.take i := by
        have hjt : j < (l.take i).length := by
          simp [List.length_take]
          omega
        have hget : (l.take i).get ⟨j, hjt⟩ = l.get ⟨j, hjl⟩ := by
          simp [List.get_eq_getElem, List.getElem_take]
        rw [← hget]
        exact List.get_mem _ _ _
      have := hall _ hmem
      simp at this
      simp [this]
    · intro hall
      simp only [Bool.true_and, List.all_eq_true]
      intro it hit
      obtain ⟨j, hjt, hget⟩ := List.mem_iff_getElem.mp hit
      have hji : j < i := by
        have := hjt
        simp [List.length_take] at this
        omega
      have hjl : j < l.length := by omega
      have hcond := hall j hji
      unfold linkCond at hcond
      rw [hempty] at hcond
      simp at hcond
      have hgl : it = l.get ⟨j, hjl⟩ := by
        rw [← hget]
        simp [List.get_eq_getElem, List.getElem_take]
      rw [hgl]
      simp [hcond]

/-- Claim C5: in every rendered row a cell is rendered as a link (the
`linkCellStr` shape wrapping the escaped representation, with the href from
`cl.url_for_result`) exactly when it is the first column and
`cl.list_display_links` is empty, or its field name is in
`cl.list_display_links`; the first link cell of a row uses the `th` tag and
every later link cell uses `td`; when `cl.is_popup` the link carries the
onclick handler built by `popupLinkAttr` from the serialized `pk` (or
`cl.to_field`) value, and otherwise no link attribute. -/
theorem C5_link_cells (fw : Fw) (cl : ChangeList) (r : Result) (form : Option Form)
    (mif : Option DisplayItem) (cells : List String)
    (h : styCells fw cl r form mif true cl.listDisplay = .ok cells) :
    cells.length = cl.listDisplay.length ∧
    ∀ i (hi : i < cl.listDisplay.length) (hic : i < cells.length),
      ((linkCond cl (firstAfter cl true (cl.listDisplay.take i)) (cl.listDisplay.get ⟨i, hi⟩) = true →
        ∃ ra content,
          cells.get ⟨i, hic⟩
            = linkCellStr (if firstAfter cl true (cl.listDisplay.take i) then "th" else "td")
                ra (cl.urlForResult r) (popupLinkAttr cl r) content ∧
          (cl.isPopup = false → popupLinkAttr cl r = "")) ∧
       (linkCond cl (firstAfter cl true (cl.listDisplay.take i)) (cl.listDisplay.get ⟨i, hi⟩) = false →
        ∃ ra content, cells.get ⟨i, hic⟩ = tdCellStr ra content)) ∧
      (cl.listDisplayLinks = [] →
        (linkCond cl (firstAfter cl true (cl.listDisplay.take i)) (cl.listDisplay.get ⟨i, hi⟩) = true
          ↔ i = 0)) ∧
      (cl.listDisplayLinks ≠ [] →
        (linkCond cl (firstAfter cl true (cl.listDisplay.take i)) (cl.listDisplay.get ⟨i, hi⟩) = true
          ↔ itemInLinks (cl.listDisplay.get ⟨i, hi⟩) cl.listDisplayLinks = true)) ∧
      (firstAfter cl true (cl.listDisplay.take i) = true
        ↔ ∀ j (hj : j < i), linkCond cl (firstAfter cl true (cl.listDisplay.take j))
            (cl.listDisplay.get ⟨j, by omega⟩) = false) := by
  obtain ⟨hlen, hget⟩ := styCells_ok fw cl r form mif cl.listDisplay true cells h
  refine ⟨hlen, ?_⟩
  intro i hi hic
  obtain ⟨f2, hitem⟩ := hget i hi hic
  refine ⟨⟨?_, ?_⟩, ?_, ?_, ?_⟩
  · intro hl
    obtain ⟨rp, ia, rcs, -, -, -, hsh⟩ :=
      styItem_ok_shape fw cl r form mif _ _ _ _ hitem
    rcases hsh with ⟨-, -, hcell⟩ | ⟨hl2, -, -⟩
    · refine ⟨ia ++ classAttrOf rcs, (conditional_escape (nbspFix rp.1)).text, hcell, ?_⟩
      intro hpop
      simp [popupLinkAttr, hpop]
    · rw [hl] at hl2
      exact absurd hl2 (by simp)
  · intro hl
    obtain ⟨rp, ia, rcs, -, -, -, hsh⟩ :=
      styItem_ok_shape fw cl r form mif _ _ _ _ hitem
    rcases hsh with ⟨hl2, -, -⟩ | ⟨-, -, hcell⟩
    · rw [hl] at hl2
      exact absurd hl2 (by simp)
    · exact ⟨ia ++ classAttrOf rcs, (cellContent form (cl.listDisplay.get ⟨i, hi⟩) (nbspFix rp.1)).text, hcell⟩
  · intro hnl
    rw [firstAfter_no_links cl hnl]
    unfold linkCond
    rw [hnl, itemInLinks_nil]
    constructor
    · intro hc
      by_contra hne
      rw [take_isEmpty_false cl.listDisplay i (by omega) (by omega)] at hc
      simp at hc
    · intro h0
      subst h0
      simp
  · intro hnl
    rw [firstAfter_links cl hnl]
    unfold linkCond
    have hempty : cl.listDisplayLinks.isEmpty = false := by
      cases hcase : cl.listDisplayLinks with
      | nil => exact absurd hcase hnl
      | cons x xs => simp
    rw [hempty]
    cases hin : itemInLinks (cl.listDisplay.get ⟨i, hi⟩) cl.listDisplayLinks <;> simp [hin]
  · exact firstAfter_true_iff cl cl.listDisplay i hi

/-! ### Claim C10: cells are never empty -/

lemma escapeChar_data_ne (c : Char) : (escapeChar c).data ≠ [] := by
  unfold escapeChar
  split_ifs <;> first | decide | simp [String.singleton]

lemma htmlEscapeL_ne (l : List Char) (h : l ≠ []) : htmlEscapeL l ≠ [] := by
  cases l with
  | nil => exact absurd rfl h
  | cons c cs =>
    unfold htmlEscapeL
    intro h0
    exact escapeChar_data_ne c (List.append_eq_nil.mp h0).1

lemma htmlEscape_ne (s : String) (h : s ≠ "") : htmlEscape s ≠ "" := by
  intro h0
  apply htmlEscapeL_ne s.data
  · intro h1
    exact h (String.ext h1)
  · exact congrArg String.data h0

lemma nbspFix_text_ne (t : SafeText) : (nbspFix t).text ≠ "" := by
  unfold nbspFix
  split_ifs with h
  · decide
  · exact h

lemma conditional_escape_text_ne (t : SafeText) (h : t.text ≠ "") :
    (conditional_escape t).text ≠ "" := by
  unfold conditional_escape
  split_ifs
  · exact h
  · exact htmlEscape_ne _ h

lemma cellContent_no_form (form : Option Form) (item : DisplayItem) (rr : SafeText)
    (hnf : ∀ f, form = some f → itemInFormFields item f = false) :
    cellContent form item rr = conditional_escape rr := by
  cases form with
  | none => rfl
  | some f => simp [cellContent, hnf f rfl]

/-- Claim C10: for every cell that is not replaced by a form field's
rendering, the cell content is never the empty string: when the column
representation forced to text is `""` it is replaced by `&nbsp;` (safe)
before the cell is emitted, and the emitted content is the escaped,
non-empty representation. -/
theorem C10_nonempty_cell (fw : Fw) (cl : ChangeList) (r : Result)
    (form : Option Form) (mif : Option DisplayItem) (first : Bool)
    (item : DisplayItem) (cell : String) (f2 : Bool)
    (h : styItem fw cl r form mif first item = .ok (cell, f2))
    (hnf : ∀ f, form = some f → itemInFormFields item f = false) :
    ∃ rp : SafeText × Option (List String),
      get_column_repr fw cl r item = .ok rp ∧
      (rp.1.text = "" → nbspFix rp.1 = SafeText.mk "&nbsp;" true) ∧
      (conditional_escape (nbspFix rp.1)).text ≠ "" ∧
      ∃ ra, cell = linkCellStr (if first then "th" else "td") ra (cl.urlForResult r)
                (popupLinkAttr cl r) (conditional_escape (nbspFix rp.1)).text
          ∨ cell = tdCellStr ra (conditional_escape (nbspFix rp.1)).text := by
  obtain ⟨rp, ia, rcs, hc, -, -, hsh⟩ :=
    styItem_ok_shape fw cl r form mif first item cell f2 h
  refine ⟨rp, hc, ?_, ?_, ?_⟩
  · intro he
    unfold nbspFix
    rw [if_pos he]
  · exact conditional_escape_text_ne _ (nbspFix_text_ne rp.1)
  · rcases hsh with ⟨-, -, hcell⟩ | ⟨-, -, hcell⟩
    · exact ⟨ia ++ classAttrOf rcs, Or.inl hcell⟩
    · refine ⟨ia ++ classAttrOf rcs, Or.inr ?_⟩
      rw [hcell, cellContent_no_form form item _ hnf]

/-! ### Claim C2: MPTT indentation -/

/-- Whether a display entry resolves, on this result, to a callable
attribute (the fallback criterion of `_get_mptt_indent_field`). -/
def isCallableDisplayAttr (r : Result) : DisplayItem → Bool
  | .name s =>
    match r.attrs s with
    | .found a => a.callable
    | _ => false
  | .call _ => false

/-- The indent field as the specification words it: the first
`list_display` entry that resolves to a model field, or, failing that, the
first entry that is a callable attribute of the result. -/
def specIndentField (cl : ChangeList) (r : Result) : Option DisplayItem :=
  match cl.listDisplay.find? (fun it => (clGetField cl it).isSome) with
  | some it => some it
  | Option.none => cl.listDisplay.find? (fun it => isCallableDisplayAttr r it)

lemma mpttIndentLoop_cons (cl : ChangeList) (r : Result) (acc : Option DisplayItem)
    (item : DisplayItem) (rest : List DisplayItem) :
    mpttIndentLoop cl r acc (item :: rest)
      = match clGetField cl item with
        | some _ => .ok (some item)
        | Option.none =>
          if acc.isNone then
            match item with
            | .call _ => .error .typeError
            | .name s =>
              match getattrD r s noneAttr with
              | .error e => .error e
              | .ok a =>
                if a.callable then mpttIndentLoop cl r (some item) rest
                else mpttIndentLoop cl r acc rest
          else mpttIndentLoop cl r acc rest := rfl

lemma mpttIndentLoop_spec (cl : ChangeList) (r : Result)
    (hsafe : ∀ s e, r.attrs s = .raises e → e = PyErr.attributeError) :
    ∀ (l : List DisplayItem), (∀ it ∈ l, ∃ s, it = DisplayItem.name s) →
      ∀ (acc : Option DisplayItem),
      mpttIndentLoop cl r acc l = .ok
        (match l.find? (fun it => (clGetField cl it).isSome) with
         | some it => some it
         | Option.none =>
           match acc with
           | some d => some d
           | Option.none => l.find? (fun it => isCallableDisplayAttr r it)) := by
  intro l
  induction l with
  | nil =>
    intro _ acc
    cases acc <;> simp [mpttIndentLoop]
  | cons a l ih =>
    intro hnames acc
    obtain ⟨s, hs⟩ := hnames a (by simp)
    subst hs
    have hnames2 : ∀ it ∈ l, ∃ s, it = DisplayItem.name s :=
      fun it hit => hnames it (by simp [hit])
    rw [mpttIndentLoop_cons]
    cases hf : clGetField cl (DisplayItem.name s) with
    | some f =>
      simp only [List.find?]
      rw [show ((clGetField cl (DisplayItem.name s)).isSome = true) from by rw [hf]; rfl]
    | none =>
      have hfp : ((clGetField cl (DisplayItem.name s)).isSome) = false := by rw [hf]; rfl
      cases acc with
      | some d =>
        simp only [Option.isNone_some, Bool.false_eq_true, if_false]
        rw [ih hnames2 (some d)]
        simp only [List.find?, hfp]
      | none =>
        simp only [Option.isNone_none, if_true]
        cases hat : r.attrs s with
        | missing =>
          have hcall : isCallableDisplayAttr r (DisplayItem.name s) = false := by
            simp [isCallableDisplayAttr, hat]
          rw [show getattrD r s noneAttr = .ok noneAttr from by simp [getattrD, hat]]
          show mpttIndentLoop cl r Option.none l = _
          rw [ih hnames2 Option.none]
          simp only [List.find?, hfp, hcall]
        | raises e =>
          have he := hsafe s e hat
          subst he
          have hcall : isCallableDisplayAttr r (DisplayItem.name s) = false := by
            simp [isCallableDisplayAttr, hat]
          rw [show getattrD r s noneAttr = .ok noneAttr from by simp [getattrD, hat]]
          show mpttIndentLoop cl r Option.none l = _
          rw [ih hnames2 Option.none]
          simp only [List.find?, hfp, hcall]
        | found a2 =>
          have hcall : isCallableDisplayAttr r (DisplayItem.name s) = a2.callable := by
            simp [isCallableDisplayAttr, hat]
          rw [show getattrD r s noneAttr = .ok a2 from by simp [getattrD, hat]]
          show (if a2.callable = true then mpttIndentLoop cl r (some (DisplayItem.name s)) l
            else mpttIndentLoop cl r Option.none l) = _
          cases hc2 : a2.callable with
          | false =>
            show mpttIndentLoop cl r Option.none l = _
            rw [ih hnames2 Option.none]
            simp only [List.find?, hfp, hcall, hc2]
          | true =>
            show mpttIndentLoop cl r (some (DisplayItem.name s)) l = _
            rw [ih hnames2 (some (DisplayItem.name s))]
            simp only [List.find?, hfp, hcall, hc2]

lemma get_mptt_indent_field_spec (cl : ChangeList) (r : Result) (la : String)
    (hm : r.mpttMeta = some la)
    (hsafe : ∀ s e, r.attrs s = .raises e → e = PyErr.attributeError)
    (hnames : ∀ it ∈ cl.listDisplay, ∃ s, it = DisplayItem.name s) :
    get_mptt_indent_field cl r = .ok (specIndentField cl r) := by
  unfold get_mptt_indent_field
  rw [hm, mpttIndentLoop_spec cl r hsafe cl.listDisplay hnames Option.none]
  unfold specIndentField
  cases hff : cl.listDisplay.find? (fun it => (clGetField cl it).isSome) <;> simp

lemma linkCellStr_rowAttr_inside (tag ra url la content : String) :
    ra.data <:+: (linkCellStr tag ra url la content).data := by
  refine ⟨("<" ++ tag).data,
    ("><a href=\"" ++ url ++ "\"" ++ la ++ ">" ++ content ++ "</a></" ++ tag ++ ">").data, ?_⟩
  simp [linkCellStr, String.data_append, List.append_assoc]

lemma tdCellStr_rowAttr_inside (ra content : String) :
    ra.data <:+: (tdCellStr ra content).data := by
  refine ⟨("<td" : String).data, (">" ++ content ++ "</td>").data, ?_⟩
  simp [tdCellStr, String.data_append, List.append_assoc]

/-- Claim C2 (amended): for a result carrying `_mptt_meta` whose level
attribute is an int, the indent column is `specIndentField` — the first
`list_display` entry naming a model field, else the first entry whose
result attribute is callable (and `None` when neither exists, in which case
no column is indented); the per-column indent attribute is exactly
`style="padding-left:Npx"` with `N = 5 + MPTT_ADMIN_LEVEL_INDENT * level`
for the matching column and empty for every other column, and
`MPTT_ADMIN_LEVEL_INDENT` defaults to `10` when the setting is absent;
every cell rendered for a matching column carries that style attribute. -/
theorem C2_mptt_indent (fw : Fw) (cl : ChangeList) (r : Result) (form : Option Form)
    (la : String) (a : Attr) (lv : Int)
    (hm : r.mpttMeta = some la) (hla : r.attrs la = .found a) (hlv : a.value = .int lv)
    (hsafe : ∀ s e, r.attrs s = .raises e → e = PyErr.attributeError)
    (hnames : ∀ it ∈ cl.listDisplay, ∃ s, it = DisplayItem.name s) :
    get_mptt_indent_field cl r = .ok (specIndentField cl r) ∧
    (∀ (mif : Option DisplayItem) (item : DisplayItem),
      mpttRowAttr fw r mif item
        = .ok (if itemEqOpt item mif then indentStyle fw lv else "")) ∧
    (fw.mpttLevelIndentSetting = Option.none → MPTT_ADMIN_LEVEL_INDENT fw = 10) ∧
    (∀ d, specIndentField cl r = some d → d ∈ cl.listDisplay) ∧
    (∀ (mif : Option DisplayItem) (first : Bool) (item : DisplayItem)
        (cell : String) (f2 : Bool),
      styItem fw cl r form mif first item = .ok (cell, f2) →
      itemEqOpt item mif = true →
      (indentStyle fw lv).data <:+: cell.data) := by
  have hrow : ∀ (mif : Option DisplayItem) (item : DisplayItem),
      mpttRowAttr fw r mif item
        = .ok (if itemEqOpt item mif then indentStyle fw lv else "") := by
    intro mif item
    unfold mpttRowAttr
    by_cases heq : itemEqOpt item mif = true
    · rw [if_pos heq, if_pos heq, hm]
      simp [resGetattr, hla, hlv, bind, Except.bind, pure, Except.pure]
    · rw [if_neg heq, if_neg heq]
      rfl
  refine ⟨get_mptt_indent_field_spec cl r la hm hsafe hnames, hrow, ?_, ?_, ?_⟩
  · intro h0
    unfold MPTT_ADMIN_LEVEL_INDENT
    rw [h0]
    rfl
  · intro d hd
    unfold specIndentField at hd
    cases hff : cl.listDisplay.find? (fun it => (clGetField cl it).isSome) with
    | some it =>
      rw [hff] at hd
      have := List.mem_of_find?_eq_some hff
      simp at hd
      rw [← hd]
      exact this
    | none =>
      rw [hff] at hd
      exact List.mem_of_find?_eq_some hd
  · intro mif first item cell f2 hcell heq
    obtain ⟨rp, ia, rcs, -, hra, -, hsh⟩ :=
      styItem_ok_shape fw cl r form mif first item cell f2 hcell
    have hia : ia = indentStyle fw lv := by
      have := hrow mif item
      rw [hra, heq] at this
      have h2 : ia = indentStyle fw lv := by simpa using this
      exact h2
    have hpre : (indentStyle fw lv).data <:+: (ia ++ classAttrOf rcs).data := by
      rw [hia, String.data_append]
      exact ((indentStyle fw lv).data.prefix_append (classAttrOf rcs).data).isInfix
    rcases hsh with ⟨-, -, hc⟩ | ⟨-, -, hc⟩
    · rw [hc]
      exact hpre.trans (linkCellStr_rowAttr_inside _ _ _ _ _)
    · rw [hc]
      exact hpre.trans (tdCellStr_rowAttr_inside _ _)

/-! ### Claim C6: formset rows -/

lemma items_for_result_form (fw : Fw) (cl : ChangeList) (r : Result) (f : Form)
    (row : List String)
    (h : stylable_items_for_result fw cl r (some f) = .ok row) :
    ∃ mif cells, get_mptt_indent_field cl r = .ok mif ∧
      styCells fw cl r (some f) mif true cl.listDisplay = .ok cells ∧
      row = cells ++ [tdCellStr "" (f.renderField cl.modelPkName)] := by
  unfold stylable_items_for_result at h
  cases hmif : get_mptt_indent_field cl r with
  | error e => rw [hmif] at h; simp [bind, Except.bind] at h
  | ok mif =>
    rw [hmif] at h
    simp only [bind, Except.bind] at h
    cases hc : styCells fw cl r (some f) mif true cl.listDisplay with
    | error e => rw [hc] at h; simp at h
    | ok cells =>
      rw [hc] at h
      simp only [pure, Except.pure, Except.ok.injEq] at h
      exact ⟨mif, cells, rfl, hc, h.symm⟩

lemma items_for_result_plain (fw : Fw) (cl : ChangeList) (r : Result)
    (row : List String)
    (h : stylable_items_for_result fw cl r Option.none = .ok row) :
    ∃ mif, get_mptt_indent_field cl r = .ok mif ∧
      styCells fw cl r Option.none mif true cl.listDisplay = .ok row := by
  unfold stylable_items_for_result at h
  cases hmif : get_mptt_indent_field cl r with
  | error e => rw [hmif] at h; simp [bind, Except.bind] at h
  | ok mif =>
    rw [hmif] at h
    simp only [bind, Except.bind] at h
    cases hc : styCells fw cl r Option.none mif true cl.listDisplay with
    | error e => rw [hc] at h; simp at h
    | ok cells =>
      rw [hc] at h
      simp only [pure, Except.pure, Except.ok.injEq] at h
      exact ⟨mif, rfl, by rw [← h]; exact hc⟩

lemma styRowsZip_ok (fw : Fw) (cl : ChangeList) :
    ∀ (ps : List (Result × Form)) (rows : List (List String)),
      styRowsZip fw cl ps = .ok rows →
      rows.length = ps.length ∧
      ∀ k (hk : k < ps.length) (hkr : k < rows.length),
        stylable_items_for_result fw cl (ps.get ⟨k, hk⟩).1 (some (ps.get ⟨k, hk⟩).2)
          = .ok (rows.get ⟨k, hkr⟩) := by
  intro ps
  induction ps with
  | nil =>
    intro rows h
    simp only [styRowsZip, Except.ok.injEq] at h
    subst h
    exact ⟨rfl, fun k hk => absurd hk (by simp)⟩
  | cons p ps ih =>
    intro rows h
    unfold styRowsZip at h
    cases hr : stylable_items_for_result fw cl p.1 (some p.2) with
    | error e => rw [hr] at h; simp [bind, Except.bind] at h
    | ok row =>
      rw [hr] at h
      simp only [bind, Except.bind] at h
      cases ht : styRowsZip fw cl ps with
      | error e => rw [ht] at h; simp at h
      | ok tail =>
        rw [ht] at h
        simp only [pure, Except.pure, Except.ok.injEq] at h
        subst h
        obtain ⟨hlen, hget⟩ := ih tail ht
        refine ⟨by simp [hlen], ?_⟩
        intro k hk hkr
        cases k with
        | zero => simpa using hr
        | succ j =>
          have hj : j < ps.length := by simpa using hk
          have hjr : j < tail.length := by simpa using hkr
          exact hget j hj hjr

lemma styRowsPlain_ok (fw : Fw) (cl : ChangeList) :
    ∀ (rs : List Result) (rows : List (List String)),
      styRowsPlain fw cl rs = .ok rows →
      rows.length = rs.length ∧
      ∀ k (hk : k < rs.length) (hkr : k < rows.length),
        stylable_items_for_result fw cl (rs.get ⟨k, hk⟩) Option.none
          = .ok (rows.get ⟨k, hkr⟩) := by
  intro rs
  induction rs with
  | nil =>
    intro rows h
    simp only [styRowsPlain, Except.ok.injEq] at h
    subst h
    exact ⟨rfl, fun k hk => absurd hk (by simp)⟩
  | cons r rs ih =>
    intro rows h
    unfold styRowsPlain at h
    cases hr : stylable_items_for_result fw cl r Option.none with
    | error e => rw [hr] at h; simp [bind, Except.bind] at h
    | ok row =>
      rw [hr] at h
      simp only [bind, Except.bind] at h
      cases ht : styRowsPlain fw cl rs with
      | error e => rw [ht] at h; simp at h
      | ok tail =>
        rw [ht] at h
        simp only [pure, Except.pure, Except.ok.injEq] at h
        subst h
        obtain ⟨hlen, hget⟩ := ih tail ht
        refine ⟨by simp [hlen], ?_⟩
        intro k hk hkr
        cases k with
        | zero => simpa using hr
        | succ j =>
          have hj : j < rs.length := by simpa using hk
          have hjr : j < tail.length := by simpa using hkr
          exact hget j hj hjr

/-- Claim C6: when `cl.formset` is set, `stylable_results` pairs
`cl.result_list` with `cl.formset.forms` in order and yields one row per
pair; within such a row a non-link column whose name is among the form's
fields renders a `<td>` containing the form field's errors followed by its
widget, replacing the computed representation; after all `list_display`
columns one extra `<td>` with the form's primary-key field is appended;
without a formset one row is yielded per element of `cl.result_list`, each
with exactly one cell per `list_display` column and no extra cell. -/
theorem C6_formset_rows (fw : Fw) (cl : ChangeList) :
    (∀ forms rows, cl.formsetForms = some forms → stylable_results fw cl = .ok rows →
      rows.length = (cl.resultList.zip forms).length ∧
      ∀ k (hk : k < (cl.resultList.zip forms).length) (hkr : k < rows.length),
        stylable_items_for_result fw cl ((cl.resultList.zip forms).get ⟨k, hk⟩).1
          (some ((cl.resultList.zip forms).get ⟨k, hk⟩).2) = .ok (rows.get ⟨k, hkr⟩)) ∧
    (∀ r f row, stylable_items_for_result fw cl r (some f) = .ok row →
      ∃ mif cells, get_mptt_indent_field cl r = .ok mif ∧
        styCells fw cl r (some f) mif true cl.listDisplay = .ok cells ∧
        cells.length = cl.listDisplay.length ∧
        row = cells ++ [tdCellStr "" (f.renderField cl.modelPkName)]) ∧
    (∀ r f (mif : Option DisplayItem) (first : Bool) item cell (f2 : Bool),
      itemInFormFields item f = true →
      linkCond cl first item = false →
      styItem fw cl r (some f) mif first item = .ok (cell, f2) →
      ∃ ra, cell = tdCellStr ra (f.fieldErrors item.str ++ f.renderField item.str)) ∧
    (cl.formsetForms = Option.none → ∀ rows, stylable_results fw cl = .ok rows →
      rows.length = cl.resultList.length ∧
      ∀ k (hk : k < cl.resultList.length) (hkr : k < rows.length),
        stylable_items_for_result fw cl (cl.resultList.get ⟨k, hk⟩) Option.none
          = .ok (rows.get ⟨k, hkr⟩)) ∧
    (∀ r row, stylable_items_for_result fw cl r Option.none = .ok row →
      row.length = cl.listDisplay.length) := by
  refine ⟨?_, ?_, ?_, ?_, ?_⟩
  · intro forms rows hfs h
    unfold stylable_results at h
    rw [hfs] at h
    exact styRowsZip_ok fw cl (cl.resultList.zip forms) rows h
  · intro r f row h
    obtain ⟨mif, cells, hmif, hc, hrow⟩ := items_for_result_form fw cl r f row h
    exact ⟨mif, cells, hmif, hc,
      (styCells_ok fw cl r (some f) mif cl.listDisplay true cells hc).1, hrow⟩
  · intro r f mif first item cell f2 hin hnl h
    obtain ⟨rp, ia, rcs, -, -, -, hsh⟩ :=
      styItem_ok_shape fw cl r (some f) mif first item cell f2 h
    rcases hsh with ⟨hl, -, -⟩ | ⟨-, -, hc⟩
    · rw [hnl] at hl
      exact absurd hl (by simp)
    · refine ⟨ia ++ classAttrOf rcs, ?_⟩
      rw [hc]
      simp [cellContent, hin, formFieldRepr]
  · intro hfs rows h
    unfold stylable_results at h
    rw [hfs] at h
    exact styRowsPlain_ok fw cl cl.resultList rows h
  · intro r row h
    obtain ⟨mif, -, hc⟩ := items_for_result_plain fw cl r row h
    exact (styCells_ok fw cl r Option.none mif cl.listDisplay true row hc).1

/-! ### Concrete instances used by the closed evaluations below -/

/-- A concrete framework configuration (no MPTT setting, simple formatters). -/
def wFw : Fw := ⟨Option.none, fun v => "dt " ++ pyStr v, fun v => "d " ++ pyStr v,
  fun v => "t " ++ pyStr v⟩

/-- A plain, non-callable attribute holding `v`. -/
def wPlainAttr (v : PyVal) : Attr := ⟨v, false, .error .typeError, false, false⟩

def wTitleField : Field :=
  ⟨"title", "title", false, false, false, false, false, false, false, 0, []⟩

def wPriceField : Field :=
  ⟨"price", "price", false, false, false, false, false, false, true, 2, []⟩

def wSubField : Field :=
  ⟨"subtitle", "subtitle", false, false, false, false, false, false, false, 0, []⟩

def wBoolField : Field :=
  ⟨"act", "act", false, false, false, false, true, false, false, 0, []⟩

def wAttrs : String → AttrRes := fun nm =>
  if nm = "title" then .found (wPlainAttr (.str "Hello"))
  else if nm = "price" then .found (wPlainAttr (.dec (mkRat 7 2)))
  else if nm = "level" then .found (wPlainAttr (.int 2))
  else if nm = "mymethod" then .found ⟨.obj "<bound method>", true, .ok (.str "mval"), false, false⟩
  else .missing

/-- An MPTT result at level 2 with a title, a price and a display method. -/
def wResult : Result := ⟨wAttrs, some "level", fun _ => .int 7⟩

def wCl : ChangeList :=
  { listDisplay := [.name "title", .name "mymethod"]
    listDisplayLinks := []
    resultList := [wResult]
    formsetForms := Option.none
    lookupOpts := ⟨fun s => if s = "title" then some wTitleField
      else if s = "price" then some wPriceField else Option.none, "id"⟩
    modelAdmin := ⟨fun _ => Option.none, fun _ => Option.none⟩
    isPopup := false
    toField := Option.none
    urlForResult := fun _ => "/page/7/"
    modelPkName := "id"
    resultHeaders := [⟨⟨"", false⟩⟩, ⟨⟨" class=\"sorted\"", true⟩⟩] }

def wBoolAttrs : String → AttrRes := fun nm =>
  if nm = "act" then .found (wPlainAttr (.bool true)) else .missing

def wBoolResult : Result := ⟨wBoolAttrs, Option.none, fun _ => .int 1⟩

def wForm : Form :=
  ⟨["subtitle"], fun nm => "<input name=\"" ++ nm ++ "\" />", fun _ => ""⟩

def fAttrs : String → AttrRes := fun nm =>
  if nm = "title" then .found (wPlainAttr (.str "A"))
  else if nm = "subtitle" then .found (wPlainAttr (.str "B"))
  else .missing

def fResult : Result := ⟨fAttrs, Option.none, fun _ => .int 1⟩

/-- A change list with an editable formset over the `subtitle` column. -/
def fCl : ChangeList :=
  { listDisplay := [.name "title", .name "subtitle"]
    listDisplayLinks := []
    resultList := [fResult]
    formsetForms := some [wForm]
    lookupOpts := ⟨fun s => if s = "title" then some wTitleField
      else if s = "subtitle" then some wSubField else Option.none, "id"⟩
    modelAdmin := ⟨fun _ => Option.none, fun _ => Option.none⟩
    isPopup := false
    toField := Option.none
    urlForResult := fun _ => "/u/"
    modelPkName := "id"
    resultHeaders := [] }

def xAttrs : String → AttrRes := fun nm =>
  if nm = "blurb" then .found (wPlainAttr (.str "hi"))
  else if nm = "level" then .found (wPlainAttr (.int 3))
  else .missing

/-- An MPTT result whose only display column is neither a model field nor a
callable attribute. -/
def xResult : Result := ⟨xAttrs, some "level", fun _ => .int 1⟩

def xCl : ChangeList :=
  { listDisplay := [.name "blurb"]
    listDisplayLinks := []
    resultList := [xResult]
    formsetForms := Option.none
    lookupOpts := ⟨fun _ => Option.none, "id"⟩
    modelAdmin := ⟨fun _ => Option.none, fun _ => Option.none⟩
    isPopup := false
    toField := Option.none
    urlForResult := fun _ => "/u/"
    modelPkName := "id"
    resultHeaders := [] }

def bAttrs : String → AttrRes := fun nm =>
  if nm = "blurb" then .found (wPlainAttr (.str "hi")) else .missing

def bResult : Result := ⟨bAttrs, Option.none, fun _ => .int 1⟩

/-- A change list whose only column is a non-field attribute configured
with a column class. -/
def bCl : ChangeList :=
  { listDisplay := [.name "blurb"]
    listDisplayLinks := []
    resultList := [bResult]
    formsetForms := Option.none
    lookupOpts := ⟨fun _ => Option.none, "id"⟩
    modelAdmin := ⟨fun s => if s = "blurb" then some "wide" else Option.none, fun _ => Option.none⟩
    isPopup := false
    toField := Option.none
    urlForResult := fun _ => "/u/"
    modelPkName := "id"
    resultHeaders := [] }

def b2Attrs : String → AttrRes := fun nm =>
  if nm = "title" then .found (wPlainAttr (.str "Hi")) else .missing

def b2Result : Result := ⟨b2Attrs, Option.none, fun _ => .int 1⟩

/-- The same configured column class on a column that IS a model field. -/
def b2Cl : ChangeList :=
  { listDisplay := [.name "title"]
    listDisplayLinks := []
    resultList := [b2Result]
    formsetForms := Option.none
    lookupOpts := ⟨fun s => if s = "title" then some wTitleField else Option.none, "id"⟩
    modelAdmin := ⟨fun s => if s = "title" then some "wide" else Option.none, fun _ => Option.none⟩
    isPopup := false
    toField := Option.none
    urlForResult := fun _ => "/u/"
    modelPkName := "id"
    resultHeaders := [] }

/-- Whether a rendered cell carries the MPTT indentation attribute. -/
def hasIndentCell (c : String) : Bool :=
  decide ((" style=\"padding-left:" : String).data <:+: c.data)

/-! ### Claim C4 (code bug) and the remaining closed evaluations -/

/-- Claim C4, evaluated at the failing input: for a non-field column,
`_get_non_field_repr` returns `None` as row classes, so a configured
`list_column_classes` entry makes line 114 call `None.append`, raising
`AttributeError` instead of rendering the cell; the whole row (and
`stylable_results`) fails.  The same configuration on a model-field column
works and renders the configured class. -/
theorem C4_column_class_bug :
    get_non_field_repr bCl.modelAdmin bResult (.name "blurb")
      = .ok (SafeText.mk "hi" true, Option.none) ∧
    appendColumnClass bCl.modelAdmin (.name "blurb") Option.none
      = .error PyErr.attributeError ∧
    stylable_items_for_result wFw bCl bResult Option.none
      = .error PyErr.attributeError ∧
    stylable_results wFw bCl = .error PyErr.attributeError ∧
    stylable_items_for_result wFw b2Cl b2Result Option.none
      = .ok ["<th class=\"wide\"><a href=\"/u/\">Hi</a></th>"] :=
  ⟨rfl, rfl, rfl, rfl, rfl⟩

/-- Claim C2, counterexample to the claim as stated: `xResult` has
`_mptt_meta`, yet no cell of its rendered row is indented, because no
`list_display` entry resolves to a model field or to a callable attribute,
so the indent field is `None` and zero (not exactly one) columns carry the
padding style. -/
theorem C2_counterexample :
    xResult.mpttMeta.isSome = true ∧
    (stylable_items_for_result wFw xCl xResult Option.none).map
      (fun cells => cells.countP hasIndentCell) = .ok 0 :=
  ⟨rfl, rfl⟩

theorem C1_stylable_result_headers_witness :
    (stylable_result_headers wCl).length = wCl.listDisplay.length ∧
    (stylable_result_headers wCl).map (fun h => h.classAttrib.text)
      = [" class=\"col-title\"", " class=\"col-mymethod sorted\""] := by
  have h := C1_stylable_result_headers wCl rfl
  exact ⟨h.1, by decide⟩

theorem C2_mptt_indent_witness : MPTT_ADMIN_LEVEL_INDENT wFw = 10 := by
  have hsafe : ∀ s e, wResult.attrs s = .raises e → e = PyErr.attributeError := by
    intro s e h
    have h2 : wAttrs s = .raises e := h
    unfold wAttrs at h2
    split_ifs at h2
  have hnames : ∀ it ∈ wCl.listDisplay, ∃ s, it = DisplayItem.name s := by
    intro it hit
    have hit2 : it ∈ [DisplayItem.name "title", DisplayItem.name "mymethod"] := hit
    rcases List.mem_cons.mp hit2 with h | h
    · exact ⟨"title", h⟩
    · rcases List.mem_cons.mp h with h | h
      · exact ⟨"mymethod", h⟩
      · exact absurd h (List.not_mem_nil it)
  exact (C2_mptt_indent wFw wCl wResult Option.none "level" (wPlainAttr (.int 2)) 2
    rfl rfl rfl hsafe hnames).2.2.1 rfl

theorem C3_get_field_repr_witness :
    get_field_repr wFw wBoolResult wBoolField = .ok (boolean_icon (.bool true), some []) :=
  ((C3_get_field_repr wFw wBoolResult wBoolField (wPlainAttr (.bool true))
    rfl).2.2.2.2.2.1) rfl rfl rfl (Or.inl rfl)

theorem C5_link_cells_witness :
    (["<th><a href=\"/page/7/\">Hello</a></th>", "<td>mval</td>"] : List String).length
      = wCl.listDisplay.length :=
  (C5_link_cells wFw wCl wResult Option.none Option.none
    ["<th><a href=\"/page/7/\">Hello</a></th>", "<td>mval</td>"] rfl).1

theorem C6_formset_rows_witness :
    ([["<th><a href=\"/u/\">A</a></th>", "<td><input name=\"subtitle\" /></td>",
       "<td><input name=\"id\" /></td>"]] : List (List String)).length
      = (fCl.resultList.zip [wForm]).length :=
  ((C6_formset_rows wFw fCl).1 [wForm]
    [["<th><a href=\"/u/\">A</a></th>", "<td><input name=\"subtitle\" /></td>",
      "<td><input name=\"id\" /></td>"]] rfl rfl).1

theorem C7_decimal_field_witness :
    get_field_repr wFw wResult wPriceField
      = .ok (SafeText.mk (formatFixed 2 (mkRat 7 2)) false, some []) ∧
    formatFixed 2 (mkRat 7 2) = "3.50" :=
  ⟨(C7_decimal_field wFw wResult wPriceField (wPlainAttr (.dec (mkRat 7 2))) (mkRat 7 2)
    rfl rfl rfl rfl rfl rfl rfl).1 rfl, rfl⟩

theorem C8_non_field_error_witness :
    get_non_field_repr wCl.modelAdmin wResult (.name "missing")
      = .ok (EMPTY_CHANGELIST_VALUE, Option.none) :=
  (C8_non_field_error wCl.modelAdmin wResult (.name "missing") PyErr.attributeError
    rfl (Or.inl rfl)).1

theorem C9_non_field_escape_witness :
    get_non_field_repr wCl.modelAdmin wResult (.name "mymethod")
      = .ok (SafeText.mk (htmlEscape (pyStr (.str "mval"))) true, Option.none) :=
  ((C9_non_field_escape wCl.modelAdmin wResult (.name "mymethod") false false (.str "mval")
    rfl).2.2) rfl rfl

theorem C10_nonempty_cell_witness :
    (conditional_escape (nbspFix (SafeText.mk "mval" true))).text ≠ "" := by
  obtain ⟨rp, hc, -, hne, -⟩ := C10_nonempty_cell wFw wCl wResult Option.none Option.none
    false (.name "mymethod") "<td>mval</td>" false rfl (fun f hf => by cases hf)
  have h2 : get_column_repr wFw wCl wResult (.name "mymethod")
      = Except.ok (SafeText.mk "mval" true, (Option.none : Option (List String))) := rfl
  rw [hc] at h2
  have h3 := Except.ok.inj h2
  rw [h3] at hne
  exact hne

end Ecms
